import Mathlib

/-!
# Verification of the `vectorized2d` library against its specification

Shallow embedding of the `vectorized2d` Python library (Array2D / Point2D /
Vector2D / Coordinate).  An `Array2D` of shape (N, 2) is modelled as a
`List (ℝ × ℝ)`: one pair per row.  Elementwise numpy kernels are modelled as
per-row real-valued functions; numpy broadcasting of two N×2 operands is
modelled by `bzip2`; fallible operations (shape errors, precondition
assertions) return `Except`/`Option`.
-/

open Real

/-- A single row of an `Array2D`: the pair (x1, x2). -/
abbrev Vec2 := ℝ × ℝ

/-- Elementwise subtraction of two rows (numpy `self - other` per row). -/
noncomputable def sub2 (u v : Vec2) : Vec2 := (u.1 - v.1, u.2 - v.2)

/-- `Array2D._norm` per row: `np.sqrt(a[:,0]**2 + a[:,1]**2)`. -/
noncomputable def norm2 (v : Vec2) : ℝ := Real.sqrt (v.1 ^ 2 + v.2 ^ 2)

/-- Python float `%` (numpy `%`) with the sign convention of the divisor:
`x % y = x - y * floor (x / y)`. -/
noncomputable def fmod (x y : ℝ) : ℝ := x - y * ⌊x / y⌋

/-- numpy `arctan2(y, x)`. -/
noncomputable def atan2 (y x : ℝ) : ℝ :=
  if 0 < x then Real.arctan (y / x)
  else if x < 0 then
    (if 0 ≤ y then Real.arctan (y / x) + π else Real.arctan (y / x) - π)
  else
    (if 0 < y then π / 2 else if y < 0 then -π / 2 else 0)

/-- numpy broadcasting of an elementwise binary kernel `f` over two N×2
operands: equal row counts pair rows up, a 1-row operand is repeated to the
other's length, and any other combination is a shape error (`none`). -/
def bzip2 {α : Type} (f : Vec2 → Vec2 → α) (a b : List Vec2) : Option (List α) :=
  if a.length = b.length then some (List.zipWith f a b)
  else if a.length = 1 then some (b.map (f a.headI))
  else if b.length = 1 then some (a.map (fun u => f u b.headI))
  else none

/-- Modelled from the spec: the module `vectorized2d.utils.units` is not in
`src/` (only `coordinate.py` imports it); the spec fixes `NM_TO_METERS` as
the nautical mile in meters, ≈ 1852.0, a non-configurable constant. -/
def NM_TO_METERS : ℝ := 1852

/-- `np.rad2deg`. -/
noncomputable def rad2deg (x : ℝ) : ℝ := x * (180 / π)

/-- `Coordinate._delta_east_and_north_jit` per broadcast row-pair `u = self`,
`v = other` (rows are `(lat, lon)`): returns `(d_east, d_north)` in meters. -/
noncomputable def deltaEN (u v : Vec2) : ℝ × ℝ :=
  let d_lat := rad2deg (v.1 - u.1)
  let d_lon := rad2deg (v.2 - u.2)
  let d_north := d_lat * 60
  let d_east := d_lon * 60 * Real.cos ((u.1 + v.1) / 2)
  (d_east * NM_TO_METERS, d_north * NM_TO_METERS)

/-- `Coordinate._dist(d_east, d_north) = np.sqrt(d_east**2 + d_north**2)`. -/
noncomputable def distKernel (d_east d_north : ℝ) : ℝ :=
  Real.sqrt (d_east ^ 2 + d_north ^ 2)

/-- `Coordinate._bearing(d_east, d_north) = np.arctan2(d_east, d_north) % (2*pi)`. -/
noncomputable def bearingKernel (d_east d_north : ℝ) : ℝ :=
  fmod (atan2 d_east d_north) (2 * π)

/-- `Coordinate.geo_dist`: computes the east/north deltas and then calls
`self._dist(d_north, d_east)` — note the source passes the deltas swapped. -/
noncomputable def geo_dist (c1 c2 : List Vec2) : Option (List ℝ) :=
  bzip2 (fun u v => distKernel (deltaEN u v).2 (deltaEN u v).1) c1 c2

/-- `Coordinate.bearing`: `self._bearing(d_east, d_north)` per broadcast pair. -/
noncomputable def bearing (c1 c2 : List Vec2) : Option (List ℝ) :=
  bzip2 (fun u v => bearingKernel (deltaEN u v).1 (deltaEN u v).2) c1 c2

/-- `Coordinate.geo_dist_and_bearing`: one shared delta computation, then
`(self._dist(d_east, d_north), self._bearing(d_east, d_north))`. -/
noncomputable def geo_dist_and_bearing (c1 c2 : List Vec2) : Option (List (ℝ × ℝ)) :=
  bzip2 (fun u v =>
    (distKernel (deltaEN u v).1 (deltaEN u v).2,
     bearingKernel (deltaEN u v).1 (deltaEN u v).2)) c1 c2

/-- `Coordinate._shifted` per row: the destination-point formula on a sphere
of radius 6,378,100 m, returning the `(shifted_lat, shifted_lon)` row of the
new Coordinate (radians). -/
noncomputable def shiftedLatLon (lat lon d b : ℝ) : Vec2 :=
  let earth_radius : ℝ := 6378100
  let angular_dist := d / earth_radius
  let sin_angular_dist := Real.sin angular_dist
  let cos_angular_dist := Real.cos angular_dist
  let sin_lat := Real.sin lat
  let cos_lat := Real.cos lat
  let sin_shifted_lat := sin_lat * cos_angular_dist + cos_lat * sin_angular_dist * Real.cos b
  let shifted_lat := Real.arcsin sin_shifted_lat
  let shifted_lon := lon + atan2 (Real.sin b * sin_angular_dist * cos_lat)
                                 (cos_angular_dist - sin_lat * sin_shifted_lat)
  (shifted_lat, shifted_lon)

/-- `Coordinate.shifted` with scalar distance and bearing: per-row shift,
repacked into a new Coordinate via `Coordinate(lat=..., lon=...)`. -/
noncomputable def shifted (c : List Vec2) (d b : ℝ) : List Vec2 :=
  c.map (fun u => shiftedLatLon u.1 u.2 d b)

/-- The error taxonomy of the spec: `ShapeError` for inputs that cannot be
reshaped to N×2 or broadcast together, `PreconditionError` for single-row-only
operations invoked on a multi-row value. -/
inductive V2Error where
  | shape
  | precondition
  deriving DecidableEq

/-- Group a flat list of floats into consecutive pairs
(the row structure produced by `reshape(-1, 2)` on an even-length input). -/
def pairUp : List ℝ → List Vec2
  | x :: y :: rest => (x, y) :: pairUp rest
  | _ => []

/-- `Array2D.__new__`: `np.asarray(input_array, dtype=float).reshape(-1, 2)`.
The input is modelled by its flat element list; `reshape(-1, 2)` succeeds
exactly when the total element count is even and then yields consecutive
pairs as rows. -/
def construct (input : List ℝ) : Except V2Error (List Vec2) :=
  if input.length % 2 = 0 then .ok (pairUp input) else .error .shape

/-- `Array2D._array_equal`: loop over the rows, comparing both components;
only ever called on arrays of equal row count. -/
def array_equal : List Vec2 → List Vec2 → Prop
  | [], [] => True
  | u :: a, v :: b => (u.1 = v.1 ∧ u.2 = v.2) ∧ array_equal a b
  | _, _ => False

/-- `Array2D.__eq__`: `False` when the row counts differ (shape mismatch is
not an error), otherwise `_array_equal`. -/
def eqA (a b : List Vec2) : Prop :=
  if a.length = b.length then array_equal a b else False

/-- `Array2D.concat`: vertical concatenation, `np.concatenate(arrays)`. -/
def concat (arrays : List (List Vec2)) : List Vec2 := arrays.flatten

/-- `Array2D.split`: `[self[i:(i + 1)] for i in range(len(self))]` — the
slice `self[i:(i+1)]` is the single-row array holding row `i`. -/
def split (a : List Vec2) : List (List Vec2) := a.map (fun u => [u])

/-- `Array2D.normalized`: per-row division by the row norm, where a zero
norm is first replaced by 1 (`norm[norm == 0] = 1`). -/
noncomputable def normalized (a : List Vec2) : List Vec2 :=
  a.map (fun v =>
    let n := norm2 v
    let n := if n = 0 then 1 else n
    (v.1 / n, v.2 / n))

/-! ## Array2D: basic lemmas -/

theorem pairUp_length : ∀ l : List ℝ, (pairUp l).length = l.length / 2
  | [] => rfl
  | [_] => by simp [pairUp]
  | _ :: _ :: rest => by
    simp only [pairUp, List.length_cons]
    rw [pairUp_length rest]
    omega

theorem join_split (a : List Vec2) : (split a).flatten = a := by
  induction a with
  | nil => rfl
  | cons u rest ih => simp [split, List.flatten] at ih ⊢; exact ih

/-! ## Claims C7, C9, C10, C6 -/

/-- C7: construction from any accepted input succeeds exactly when the total
element count is a multiple of 2, yielding row count = total / 2; with an odd
total element count it fails with a ShapeError producing no array. -/
theorem C7_construct_shape (l : List ℝ) :
    (l.length % 2 = 0 →
      construct l = .ok (pairUp l) ∧ (pairUp l).length = l.length / 2) ∧
    (l.length % 2 ≠ 0 → construct l = .error .shape) := by
  constructor
  · intro h
    exact ⟨by simp [construct, h], pairUp_length l⟩
  · intro h
    simp [construct, h]

/-- C7 witness: the even input `[1, 2, 3, 4]` constructs with 2 rows, and the
odd input `[1, 2, 3]` fails with a ShapeError. -/
theorem C7_construct_shape_witness :
    (construct [(1 : ℝ), 2, 3, 4] = .ok (pairUp [(1 : ℝ), 2, 3, 4]) ∧
      (pairUp [(1 : ℝ), 2, 3, 4]).length = [(1 : ℝ), 2, 3, 4].length / 2) ∧
    construct [(1 : ℝ), 2, 3] = .error .shape :=
  ⟨(C7_construct_shape [(1 : ℝ), 2, 3, 4]).1 (by decide),
   (C7_construct_shape [(1 : ℝ), 2, 3]).2 (by decide)⟩

theorem array_equal_iff :
    ∀ a b : List Vec2, a.length = b.length →
      (array_equal a b ↔ List.Forall₂ (fun u v : Vec2 => u.1 = v.1 ∧ u.2 = v.2) a b)
  | [], [], _ => by simp [array_equal]
  | u :: a, v :: b, h => by
    simp only [array_equal, List.forall₂_cons]
    have := array_equal_iff a b (by simpa using h)
    tauto
  | [], _ :: _, h => by simp at h
  | _ :: _, [], h => by simp at h

/-- C9: `Array2D.__eq__` holds iff the two arrays have the same row count and
every row's two components are exactly equal element-wise; on a shape
mismatch it is false rather than an error. -/
theorem C9_eq_spec (a b : List Vec2) :
    (eqA a b ↔
      a.length = b.length ∧
        List.Forall₂ (fun u v : Vec2 => u.1 = v.1 ∧ u.2 = v.2) a b) ∧
    (a.length ≠ b.length → ¬ eqA a b) := by
  refine ⟨?_, ?_⟩
  · by_cases h : a.length = b.length
    · rw [eqA, if_pos h, array_equal_iff a b h]
      tauto
    · rw [eqA, if_neg h]
      tauto
  · intro h
    rw [eqA, if_neg h]
    exact not_false

/-- C9 witness: a 1-row and a 0-row array compare unequal (no error). -/
theorem C9_eq_spec_witness : ¬ eqA [((1 : ℝ), 2)] [] :=
  (C9_eq_spec [((1 : ℝ), 2)] []).2 (by decide)

/-- C10: `split` returns exactly N single-row arrays, the i-th being row i,
and `concat` of the split is the original array. -/
theorem C10_split_concat (a : List Vec2) :
    (split a).length = a.length ∧
    (∀ i, i < a.length →
      (split a).getD i [] = [a.getD i ((0 : ℝ), (0 : ℝ))] ∧
      ((split a).getD i []).length = 1) ∧
    concat (split a) = a := by
  refine ⟨by simp [split], ?_, join_split a⟩
  intro i hi
  have h1 : (split a).getD i [] = [a.getD i ((0 : ℝ), (0 : ℝ))] := by
    have hs : i < (split a).length := by simpa [split] using hi
    rw [List.getD_eq_getElem _ _ hs, List.getD_eq_getElem _ _ hi]
    simp [split]
  exact ⟨h1, by rw [h1]; rfl⟩

/-- C10 witness: splitting a concrete 2-row array gives two 1-row arrays and
concatenating them back gives the original. -/
theorem C10_split_concat_witness :
    (split [((1 : ℝ), 2), ((3 : ℝ), 4)]).getD 0 [] =
        [[((1 : ℝ), 2), ((3 : ℝ), 4)].getD 0 ((0 : ℝ), (0 : ℝ))] ∧
      ((split [((1 : ℝ), 2), ((3 : ℝ), 4)]).getD 0 []).length = 1 :=
  ((C10_split_concat [((1 : ℝ), 2), ((3 : ℝ), 4)]).2.1 0 (by decide))

/-- C6: `normalized` is total (never an error): every row with nonzero norm
is divided by its norm and then has norm 1, and every zero-norm row is left
unchanged (the divisor is treated as 1). -/
theorem C6_normalized_spec (a : List Vec2) :
    normalized a =
      a.map (fun v =>
        if norm2 v = 0 then v else (v.1 / norm2 v, v.2 / norm2 v)) ∧
    (∀ v : Vec2, norm2 v = 0 → (if norm2 v = 0 then v else (v.1 / norm2 v, v.2 / norm2 v)) = v) ∧
    (∀ v : Vec2, norm2 v ≠ 0 →
      norm2 (if norm2 v = 0 then v else (v.1 / norm2 v, v.2 / norm2 v)) = 1) := by
  refine ⟨?_, ?_, ?_⟩
  · apply List.map_congr_left
    intro v _
    by_cases h : norm2 v = 0
    · simp [h]
    · simp [h]
  · intro v h
    simp [h]
  · intro v h
    rw [if_neg h]
    have hn0 : 0 ≤ norm2 v := Real.sqrt_nonneg _
    have hpos : 0 < norm2 v := lt_of_le_of_ne hn0 (Ne.symm h)
    have hsq : norm2 v ^ 2 = v.1 ^ 2 + v.2 ^ 2 := by
      rw [norm2, Real.sq_sqrt]
      positivity
    rw [norm2]
    rw [div_pow, div_pow, div_add_div_same, hsq.symm]
    rw [div_self (by positivity)]
    exact Real.sqrt_one

/-- C6 witness: the nonzero row (3, 4) normalizes to norm 1, and the zero row
is left unchanged. -/
theorem C6_normalized_spec_witness :
    normalized [((3 : ℝ), 4)] =
      [((3 : ℝ), 4)].map (fun v =>
        if norm2 v = 0 then v else (v.1 / norm2 v, v.2 / norm2 v)) ∧
    (if norm2 ((0 : ℝ), (0 : ℝ)) = 0 then ((0 : ℝ), (0 : ℝ))
      else (((0 : ℝ), (0 : ℝ)).1 / norm2 ((0 : ℝ), (0 : ℝ)),
            ((0 : ℝ), (0 : ℝ)).2 / norm2 ((0 : ℝ), (0 : ℝ)))) = ((0 : ℝ), (0 : ℝ)) ∧
    norm2 (if norm2 ((3 : ℝ), 4) = 0 then ((3 : ℝ), 4)
      else (((3 : ℝ), 4).1 / norm2 ((3 : ℝ), 4), ((3 : ℝ), 4).2 / norm2 ((3 : ℝ), 4))) = 1 :=
  ⟨(C6_normalized_spec [((3 : ℝ), 4)]).1,
   (C6_normalized_spec []).2.1 ((0 : ℝ), (0 : ℝ))
     (by simp [norm2]),
   (C6_normalized_spec []).2.2 ((3 : ℝ), 4)
     (by
      rw [norm2]
      intro h
      rw [show ((3 : ℝ), (4 : ℝ)).1 ^ 2 + ((3 : ℝ), (4 : ℝ)).2 ^ 2 = 25 by norm_num] at h
      have : Real.sqrt 25 > 0 := Real.sqrt_pos.mpr (by norm_num)
      linarith)⟩

/-! ## Claims C2, C3: geodesy -/

/-- The spec's `east` delta: `rad2deg(other.lon - self.lon) * 60 *
cos((self.lat + other.lat)/2) * NM_TO_METERS`. -/
noncomputable def eastSpec (u v : Vec2) : ℝ :=
  rad2deg (v.2 - u.2) * 60 * Real.cos ((u.1 + v.1) / 2) * NM_TO_METERS

/-- The spec's `north` delta: `rad2deg(other.lat - self.lat) * 60 * NM_TO_METERS`. -/
noncomputable def northSpec (u v : Vec2) : ℝ :=
  rad2deg (v.1 - u.1) * 60 * NM_TO_METERS

theorem bzip2_congr {α : Type} {f g : Vec2 → Vec2 → α} (a b : List Vec2)
    (h : ∀ u v, f u v = g u v) : bzip2 f a b = bzip2 g a b := by
  have hfg : f = g := funext fun u => funext fun v => h u v
  rw [hfg]

theorem deltaEN_east (u v : Vec2) : (deltaEN u v).1 = eastSpec u v := rfl

theorem deltaEN_north (u v : Vec2) : (deltaEN u v).2 = northSpec u v := rfl

/-- C2: for every pair of (broadcast-compatible) Coordinates, `geo_dist`
returns `sqrt(east² + north²)` per row-pair, `bearing` returns
`atan2(east, north) mod 2π` per row-pair, and `geo_dist_and_bearing` returns
exactly this (distance, bearing) pair — where `east`/`north` are the spec's
deltas.  (The source's `geo_dist` passes the deltas to `_dist` swapped; the
distance kernel is symmetric, so the result is unchanged.) -/
theorem C2_geo_dist_bearing (c1 c2 : List Vec2) :
    geo_dist c1 c2 =
      bzip2 (fun u v => Real.sqrt (eastSpec u v ^ 2 + northSpec u v ^ 2)) c1 c2 ∧
    bearing c1 c2 =
      bzip2 (fun u v => fmod (atan2 (eastSpec u v) (northSpec u v)) (2 * π)) c1 c2 ∧
    geo_dist_and_bearing c1 c2 =
      bzip2 (fun u v =>
        (Real.sqrt (eastSpec u v ^ 2 + northSpec u v ^ 2),
         fmod (atan2 (eastSpec u v) (northSpec u v)) (2 * π))) c1 c2 := by
  refine ⟨?_, ?_, ?_⟩
  · apply bzip2_congr
    intro u v
    rw [deltaEN_east, deltaEN_north, distKernel, add_comm]
  · apply bzip2_congr
    intro u v
    rw [deltaEN_east, deltaEN_north, bearingKernel]
  · apply bzip2_congr
    intro u v
    rw [deltaEN_east, deltaEN_north, distKernel, bearingKernel]

/-- The destination-point latitude sine is always in [-1, 1]. -/
theorem sin_shifted_mem (lat A b : ℝ) :
    -1 ≤ Real.sin lat * Real.cos A + Real.cos lat * Real.sin A * Real.cos b ∧
    Real.sin lat * Real.cos A + Real.cos lat * Real.sin A * Real.cos b ≤ 1 := by
  have h1 := Real.sin_sq_add_cos_sq lat
  have h2 := Real.sin_sq_add_cos_sq A
  have hb1 := Real.neg_one_le_cos b
  have hb2 := Real.cos_le_one b
  have h3 : (0 : ℝ) ≤ Real.cos lat ^ 2 * (1 - Real.cos b ^ 2) :=
    mul_nonneg (sq_nonneg _) (by nlinarith)
  have hs2 : (Real.sin lat * Real.cos A + Real.cos lat * Real.sin A * Real.cos b) ^ 2 ≤ 1 := by
    nlinarith [sq_nonneg (Real.sin lat * Real.sin A - Real.cos lat * Real.cos A * Real.cos b)]
  exact abs_le.mp ((sq_le_one_iff_abs_le_one _).mp hs2)

/-- C3: `shifted(c, d, b)` is, row by row, exactly the destination-point
formula on a sphere of radius 6,378,100 m, with
`shiftedLat = asin(sin lat * cos angularDist + cos lat * sin angularDist * cos b)`
and `shiftedLon = lon + atan2(sin b * sin angularDist * cos lat,
cos angularDist - sin lat * sin shiftedLat)`, returned as a new Coordinate in
radians. -/
theorem C3_shifted_spec (c : List Vec2) (d b : ℝ) :
    shifted c d b =
      c.map (fun u =>
        let angularDist := d / 6378100
        let shiftedLat := Real.arcsin
          (Real.sin u.1 * Real.cos angularDist +
            Real.cos u.1 * Real.sin angularDist * Real.cos b)
        (shiftedLat,
         u.2 + atan2 (Real.sin b * Real.sin angularDist * Real.cos u.1)
            (Real.cos angularDist - Real.sin u.1 * Real.sin shiftedLat))) := by
  rw [shifted]
  apply List.map_congr_left
  intro u _
  have hmem := sin_shifted_mem u.1 (d / 6378100) b
  simp only [shiftedLatLon]
  rw [Real.sin_arcsin hmem.1 hmem.2]

/-! ## Claims C8, C4: circle and ellipse sampling -/

/-- `np.arange(0, 2*pi, (2*pi)/n)`: the `n` sample bearings
`0, 2π/n, 2·2π/n, …` (exact arithmetic: `k·(2π/n) < 2π` exactly for `k < n`). -/
noncomputable def arange2pi (n : ℕ) : List ℝ :=
  (List.range n).map (fun (k : ℕ) => (k : ℝ) * (2 * π / n))

theorem arange2pi_length (n : ℕ) : (arange2pi n).length = n := by
  rw [arange2pi, List.length_map, List.length_range]

/-- `Coordinate.circle_around`: asserts the coordinate is single-row
(`PreconditionError` otherwise), then shifts it by the scalar radius along
each sampled bearing (the single row broadcast over the bearing array). -/
noncomputable def circle_around (c : List Vec2) (radius : ℝ) (n : ℕ) :
    Except V2Error (List Vec2) :=
  if c.length = 1 then
    .ok ((arange2pi n).map (fun b => shiftedLatLon c.headI.1 c.headI.2 radius b))
  else .error .precondition

/-- Modelled from the spec: `ellipse_around` is not in `src/` (only its test
calls it).  The radius of an ellipse with semi-axes `major ≥ minor` at angle
`θ` relative to the major axis, in polar form. -/
noncomputable def ellipse_radius (major minor θ : ℝ) : ℝ :=
  major * minor / Real.sqrt ((minor * Real.cos θ) ^ 2 + (major * Real.sin θ) ^ 2)

/-- Modelled from the spec: `ellipse_around(major_radius, minor_radius,
major_axis_bearing, number_of_points)` samples `n` points at the absolute
bearings `θ_k = k·2π/n`; each point is `Shifted` by the ellipse radius at
angle `θ_k - major_axis_bearing` relative to the major axis, along bearing
`θ_k`.  Same single-row precondition as `circle_around`. -/
noncomputable def ellipse_around (c : List Vec2)
    (major minor majorAxisBearing : ℝ) (n : ℕ) : Except V2Error (List Vec2) :=
  if c.length = 1 then
    .ok ((arange2pi n).map (fun θ =>
      shiftedLatLon c.headI.1 c.headI.2
        (ellipse_radius major minor (θ - majorAxisBearing)) θ))
  else .error .precondition

/-- C8: `circle_around` on a Coordinate with more than one row fails fast
with a PreconditionError and produces no result; on a single-row Coordinate
it succeeds (returning the `n` shifted points). -/
theorem C8_circle_around_precondition (c : List Vec2) (radius : ℝ) (n : ℕ) :
    (1 < c.length → circle_around c radius n = .error .precondition) ∧
    (c.length = 1 →
      circle_around c radius n =
        .ok ((arange2pi n).map (fun b => shiftedLatLon c.headI.1 c.headI.2 radius b))) := by
  constructor
  · intro h
    rw [circle_around, if_neg (by omega)]
  · intro h
    rw [circle_around, if_pos h]

/-- C8 witness: a 2-row Coordinate fails with a PreconditionError while a
1-row Coordinate succeeds. -/
theorem C8_circle_around_precondition_witness :
    circle_around [((1 : ℝ), 2), ((3 : ℝ), 4)] 5 8 = .error .precondition ∧
    circle_around [((1 : ℝ), 2)] 5 8 =
      .ok ((arange2pi 8).map (fun b =>
        shiftedLatLon [((1 : ℝ), 2)].headI.1 [((1 : ℝ), 2)].headI.2 5 b)) :=
  ⟨(C8_circle_around_precondition [((1 : ℝ), 2), ((3 : ℝ), 4)] 5 8).1 (by decide),
   (C8_circle_around_precondition [((1 : ℝ), 2)] 5 8).2 (by decide)⟩

/-- C4: `ellipse_around` on a single-row Coordinate with `minor ≤ major`
samples exactly `numPoints` points: the `k`-th sample angle is `k·2π/n`, and
the `k`-th point is `Shifted` by the ellipse radius at that angle relative to
the major axis, along that absolute bearing.  It has the same single-row
precondition as `circle_around`: on a multi-row Coordinate it fails with the
same PreconditionError. -/
theorem C4_ellipse_around_spec (c : List Vec2) (major minor mb : ℝ) (n : ℕ)
    (_hminor : minor ≤ major) :
    (c.length = 1 →
      ellipse_around c major minor mb n =
        .ok ((arange2pi n).map (fun θ =>
          shiftedLatLon c.headI.1 c.headI.2
            (ellipse_radius major minor (θ - mb)) θ)) ∧
      ((arange2pi n).map (fun θ =>
          shiftedLatLon c.headI.1 c.headI.2
            (ellipse_radius major minor (θ - mb)) θ)).length = n ∧
      (∀ k, k < n → (arange2pi n).getD k 0 = (k : ℝ) * (2 * π / n))) ∧
    (c.length ≠ 1 → ellipse_around c major minor mb n = .error .precondition) := by
  constructor
  · intro h
    refine ⟨by rw [ellipse_around, if_pos h],
      by rw [List.length_map, arange2pi_length], ?_⟩
    intro k hk
    have hk' : k < (arange2pi n).length := by rw [arange2pi_length]; exact hk
    rw [List.getD_eq_getElem _ _ hk']
    simp only [arange2pi, List.getElem_map, List.getElem_range]
  · intro h
    rw [ellipse_around, if_neg h]

/-- C4 witness: a 1-row Coordinate with major radius 2 and minor radius 1
samples 4 points, and a 2-row Coordinate fails the precondition. -/
theorem C4_ellipse_around_spec_witness :
    (ellipse_around [((1 : ℝ), 2)] 2 1 0 4 =
      .ok ((arange2pi 4).map (fun θ =>
        shiftedLatLon [((1 : ℝ), 2)].headI.1 [((1 : ℝ), 2)].headI.2
          (ellipse_radius 2 1 (θ - 0)) θ)) ∧
      ((arange2pi 4).map (fun θ =>
        shiftedLatLon [((1 : ℝ), 2)].headI.1 [((1 : ℝ), 2)].headI.2
          (ellipse_radius 2 1 (θ - 0)) θ)).length = 4 ∧
      (∀ k, k < 4 → (arange2pi 4).getD k 0 = (k : ℝ) * (2 * π / 4))) ∧
    ellipse_around [((1 : ℝ), 2), ((3 : ℝ), 4)] 2 1 0 4 = .error .precondition :=
  ⟨(C4_ellipse_around_spec [((1 : ℝ), 2)] 2 1 0 4 (by norm_num)).1 (by decide),
   (C4_ellipse_around_spec [((1 : ℝ), 2), ((3 : ℝ), 4)] 2 1 0 4 (by norm_num)).2 (by decide)⟩

/-! ## Claim C1: Point2D euclidean distance -/

/-- `Point2D.Pairing`. -/
inductive Pairing where
  | ALL
  | ALIGNED
  deriving DecidableEq

/-- `Point2D._pairwise_diff`: broadcasting `self` over dim 1 and `other` over
dim 0 and reshaping back to N×2 yields, in row-major order, `self[i] - other[j]`
for every pair `(i, j)`. -/
noncomputable def pairwiseDiff (a b : List Vec2) : List Vec2 :=
  (a.map (fun u => b.map (fun v => sub2 u v))).flatten

/-- Rows of numpy `reshape(n, m)` in row-major order: row `i` holds elements
`[i*m, (i+1)*m)` of the flat input. -/
def chunkExact : ℕ → ℕ → List ℝ → List (List ℝ)
  | 0, _, _ => []
  | n + 1, m, l => l.take m :: chunkExact n m (l.drop m)

/-- numpy `reshape(n, m)` of a flat array: fails unless the element count is
exactly `n * m`. -/
def reshape2 (l : List ℝ) (n m : ℕ) : Option (List (List ℝ)) :=
  if l.length = n * m then some (chunkExact n m l) else none

/-- `Point2D.euclid_dist`: with ALIGNED pairing, or when either side has one
row, the broadcast difference `self - other` is taken and its row norms are
the distances; otherwise the full pairwise difference is used.  With ALL
pairing the flat distances are reshaped to `(len(self), len(other))`. -/
noncomputable def euclid_dist (a b : List Vec2) (pairing : Pairing) :
    Option (List ℝ ⊕ List (List ℝ)) :=
  match (if pairing = Pairing.ALIGNED ∨ a.length = 1 ∨ b.length = 1 then
          (bzip2 sub2 a b).map (fun d => d.map norm2)
        else some ((pairwiseDiff a b).map norm2)) with
  | none => none
  | some dists =>
    match pairing with
    | .ALL => (reshape2 dists a.length b.length).map Sum.inr
    | .ALIGNED => some (Sum.inl dists)

/-- The Euclidean distance between two rows, as the spec states it. -/
noncomputable def dist2 (u v : Vec2) : ℝ :=
  Real.sqrt ((u.1 - v.1) ^ 2 + (u.2 - v.2) ^ 2)

/-- The spec's ALL result: the `len(self) × len(other)` matrix whose entry at
row `i`, column `j` is the distance between `self`-row `i` and `other`-row `j`. -/
noncomputable def distMatrixALL (a b : List Vec2) : List (List ℝ) :=
  a.map (fun u => b.map (fun v => dist2 u v))

/-- The spec's ALIGNED result: one distance per row-pair, a 1-row side being
broadcast to the other's length. -/
noncomputable def alignedDists (a b : List Vec2) : List ℝ :=
  if a.length = b.length then List.zipWith dist2 a b
  else if a.length = 1 then b.map (fun v => dist2 a.headI v)
  else a.map (fun u => dist2 u b.headI)

theorem norm2_sub2 (u v : Vec2) : norm2 (sub2 u v) = dist2 u v := rfl

theorem bzip2_eq_len {α : Type} (f : Vec2 → Vec2 → α) (a b : List Vec2)
    (h : a.length = b.length) : bzip2 f a b = some (List.zipWith f a b) := by
  simp only [bzip2]
  rw [if_pos h]

theorem bzip2_left_one {α : Type} (f : Vec2 → Vec2 → α) (a b : List Vec2)
    (h1 : ¬ a.length = b.length) (h2 : a.length = 1) :
    bzip2 f a b = some (b.map (f a.headI)) := by
  simp only [bzip2]
  rw [if_neg h1, if_pos h2]

theorem bzip2_right_one {α : Type} (f : Vec2 → Vec2 → α) (a b : List Vec2)
    (h1 : ¬ a.length = b.length) (h2 : ¬ a.length = 1) (h3 : b.length = 1) :
    bzip2 f a b = some (a.map (fun u => f u b.headI)) := by
  simp only [bzip2]
  rw [if_neg h1, if_neg h2, if_pos h3]

theorem euclid_dist_aligned_some (a b : List Vec2) (l : List Vec2)
    (hsome : bzip2 sub2 a b = some l) :
    euclid_dist a b .ALIGNED = some (.inl (l.map norm2)) := by
  simp only [euclid_dist]
  rw [if_pos (show True ∨ a.length = 1 ∨ b.length = 1 from Or.inl trivial), hsome]
  rfl

theorem euclid_dist_all_bcast (a b : List Vec2) (l : List Vec2)
    (h1 : a.length = 1 ∨ b.length = 1)
    (hsome : bzip2 sub2 a b = some l)
    (hlen : (l.map norm2).length = a.length * b.length) :
    euclid_dist a b .ALL =
      some (.inr (chunkExact a.length b.length (l.map norm2))) := by
  simp only [euclid_dist]
  rw [if_pos (Or.inr h1), hsome]
  show Option.map Sum.inr (reshape2 (l.map norm2) a.length b.length) = _
  simp only [reshape2]
  rw [if_pos hlen]
  rfl

theorem euclid_dist_all_pairwise (a b : List Vec2)
    (h1 : ¬ a.length = 1) (h2 : ¬ b.length = 1)
    (hlen : ((pairwiseDiff a b).map norm2).length = a.length * b.length) :
    euclid_dist a b .ALL =
      some (.inr (chunkExact a.length b.length ((pairwiseDiff a b).map norm2))) := by
  have hcond : ¬ (Pairing.ALL = Pairing.ALIGNED ∨ a.length = 1 ∨ b.length = 1) := by
    rintro (hc | hc | hc)
    · exact absurd hc (by decide)
    · exact h1 hc
    · exact h2 hc
  simp only [euclid_dist]
  rw [if_neg hcond]
  show Option.map Sum.inr (reshape2 ((pairwiseDiff a b).map norm2) a.length b.length) = _
  simp only [reshape2]
  rw [if_pos hlen]
  rfl

theorem chunkExact_flatten (m : ℕ) :
    ∀ L : List (List ℝ), (∀ r ∈ L, r.length = m) →
      chunkExact L.length m L.flatten = L
  | [], _ => rfl
  | r :: L, h => by
    have hr : r.length = m := h r (List.mem_cons_self r L)
    simp only [List.length_cons, List.flatten_cons, chunkExact]
    rw [← hr, List.take_left, List.drop_left, hr]
    rw [chunkExact_flatten m L (fun s hs => h s (List.mem_cons_of_mem r hs))]

theorem flatten_length_const {α : Type} (m : ℕ) :
    ∀ L : List (List α), (∀ r ∈ L, r.length = m) →
      L.flatten.length = L.length * m
  | [], _ => by simp
  | r :: L, h => by
    have hr : r.length = m := h r (List.mem_cons_self r L)
    simp only [List.flatten_cons, List.length_append, List.length_cons, hr,
      flatten_length_const m L (fun s hs => h s (List.mem_cons_of_mem r hs))]
    ring

theorem chunkExact_one (m : ℕ) (l : List ℝ) (h : l.length = m) :
    chunkExact 1 m l = [l] := by
  show l.take m :: chunkExact 0 m (l.drop m) = [l]
  rw [← h, List.take_length]
  rfl

theorem chunkExact_ones : ∀ l : List ℝ, chunkExact l.length 1 l = l.map (fun x => [x])
  | [] => rfl
  | x :: l => by
    simp only [List.length_cons, chunkExact, List.take_succ_cons, List.take_zero,
      List.drop_succ_cons, List.drop_zero, List.map_cons]
    rw [chunkExact_ones l]

/-- C1: `euclid_dist(self, other, pairing=ALL)` returns the
`len(self) × len(other)` matrix of all pairwise distances (entry `(i, j)` is
the distance between `self`-row `i` and `other`-row `j`), and with
`pairing=ALIGNED`, whenever the row counts are equal or one side has exactly
one row (broadcast to the other's length), it returns one distance per
row-pair, of length `max(len(self), len(other))`. -/
theorem C1_euclid_dist_spec (a b : List Vec2) :
    euclid_dist a b .ALL = some (.inr (distMatrixALL a b)) ∧
    (1 ≤ a.length → 1 ≤ b.length →
      (a.length = b.length ∨ a.length = 1 ∨ b.length = 1) →
      euclid_dist a b .ALIGNED = some (.inl (alignedDists a b)) ∧
      (alignedDists a b).length = max a.length b.length) := by
  constructor
  · -- ALL: all four broadcast corners produce the full pairwise matrix.
    by_cases h1 : a.length = 1
    · by_cases h2 : b.length = 1
      · obtain ⟨u, hu⟩ := List.length_eq_one.mp h1
        obtain ⟨v, hv⟩ := List.length_eq_one.mp h2
        subst hu; subst hv
        rw [euclid_dist_all_bcast [u] [v] [sub2 u v] (Or.inl rfl)
          (by rw [bzip2_eq_len sub2 [u] [v] rfl]; rfl) (by simp)]
        rfl
      · obtain ⟨u, hu⟩ := List.length_eq_one.mp h1
        subst hu
        have hne : ¬ ([u] : List Vec2).length = b.length := by
          simpa using fun h => h2 h.symm
        rw [euclid_dist_all_bcast [u] b (b.map (sub2 ([u] : List Vec2).headI))
          (Or.inl rfl) (bzip2_left_one sub2 [u] b hne rfl) (by simp)]
        rw [show ([u] : List Vec2).length = 1 from rfl,
          chunkExact_one b.length _ (by simp), List.map_map]
        rfl
    · by_cases h2 : b.length = 1
      · obtain ⟨v, hv⟩ := List.length_eq_one.mp h2
        subst hv
        have hne : ¬ a.length = ([v] : List Vec2).length := by simpa using h1
        rw [euclid_dist_all_bcast a [v] (a.map (fun u => sub2 u ([v] : List Vec2).headI))
          (Or.inr rfl) (bzip2_right_one sub2 a [v] hne h1 rfl) (by simp)]
        rw [show ([v] : List Vec2).length = 1 from rfl]
        rw [show a.length = ((a.map (fun u =>
          sub2 u ([v] : List Vec2).headI)).map norm2).length by simp]
        rw [chunkExact_ones, List.map_map, List.map_map]
        rfl
      · have hrows : ∀ r ∈ distMatrixALL a b, r.length = b.length := by
          intro r hr
          obtain ⟨u, _, hu⟩ := List.mem_map.mp hr
          rw [← hu, List.length_map]
        have hflat : (pairwiseDiff a b).map norm2 = (distMatrixALL a b).flatten := by
          simp only [pairwiseDiff]
          rw [List.map_flatten, List.map_map]
          apply congrArg List.flatten
          apply List.map_congr_left
          intro u _
          show (b.map (sub2 u)).map norm2 = b.map (fun v => dist2 u v)
          rw [List.map_map]
          rfl
        have hlen : ((pairwiseDiff a b).map norm2).length = a.length * b.length := by
          rw [hflat, flatten_length_const b.length _ hrows, distMatrixALL,
            List.length_map]
        rw [euclid_dist_all_pairwise a b h1 h2 hlen, hflat,
          show a.length = (distMatrixALL a b).length by
            rw [distMatrixALL, List.length_map],
          chunkExact_flatten b.length _ hrows]
  · -- ALIGNED: equal row counts, or a 1-row side broadcast to the other.
    intro ha hb hcompat
    by_cases hEq : a.length = b.length
    · rw [euclid_dist_aligned_some a b _ (bzip2_eq_len sub2 a b hEq)]
      constructor
      · simp only [alignedDists]
        rw [if_pos hEq, List.map_zipWith]
        rfl
      · simp only [alignedDists]
        rw [if_pos hEq, List.length_zipWith, hEq, min_self, max_self]
    · by_cases hA1 : a.length = 1
      · rw [euclid_dist_aligned_some a b _ (bzip2_left_one sub2 a b hEq hA1)]
        constructor
        · simp only [alignedDists]
          rw [if_neg hEq, if_pos hA1, List.map_map]
          rfl
        · simp only [alignedDists]
          rw [if_neg hEq, if_pos hA1, List.length_map, hA1]
          exact (Nat.max_eq_right hb).symm
      · have hB1 : b.length = 1 := by tauto
        rw [euclid_dist_aligned_some a b _ (bzip2_right_one sub2 a b hEq hA1 hB1)]
        constructor
        · simp only [alignedDists]
          rw [if_neg hEq, if_neg hA1, List.map_map]
          rfl
        · simp only [alignedDists]
          rw [if_neg hEq, if_neg hA1, List.length_map, hB1]
          exact (Nat.max_eq_left ha).symm

/-- C1 witness: a 1-row and a 2-row Point2D are ALIGNED-compatible and the
aligned result has length 2. -/
theorem C1_euclid_dist_spec_witness :
    euclid_dist [((0 : ℝ), 0)] [((3 : ℝ), 4), ((6 : ℝ), 8)] .ALIGNED =
      some (.inl (alignedDists [((0 : ℝ), 0)] [((3 : ℝ), 4), ((6 : ℝ), 8)])) ∧
    (alignedDists [((0 : ℝ), 0)] [((3 : ℝ), 4), ((6 : ℝ), 8)]).length =
      max [((0 : ℝ), 0)].length [((3 : ℝ), 4), ((6 : ℝ), 8)].length :=
  (C1_euclid_dist_spec [((0 : ℝ), 0)] [((3 : ℝ), 4), ((6 : ℝ), 8)]).2
    (by decide) (by decide) (by decide)

/-! ## Claim C5: Vector2D.angle_to -/

/-- `Vector2D._direction` per row: `np.arctan2(v[:,1], v[:,0]) % (2*np.pi)`. -/
noncomputable def direction1 (v : Vec2) : ℝ := fmod (atan2 v.2 v.1) (2 * π)

/-- `Vector2D.direction`: the per-row direction array. -/
noncomputable def direction (a : List Vec2) : List ℝ := a.map direction1

/-- `Vector2D._calc_angle_diff` per element: `raw_diff = to - from`;
`diff = |raw_diff| % 2π`; entries `> π` are replaced by `2π - diff`; entries
whose raw difference lies in `[-π, 0]` or `[π, 2π]` are negated. -/
noncomputable def calcAngleDiff (dfrom dto : ℝ) : ℝ :=
  let raw_diff := dto - dfrom
  let diff := fmod |raw_diff| (2 * π)
  let diff := if diff > π then 2 * π - diff else diff
  if (-π ≤ raw_diff ∧ raw_diff ≤ 0) ∨ (π ≤ raw_diff ∧ raw_diff ≤ 2 * π) then
    -diff
  else diff

/-- `Vector2D.angle_to`: `_calc_angle_diff(self.direction, v_towards.direction)`
elementwise. -/
noncomputable def angle_to (a b : List Vec2) : List ℝ :=
  List.zipWith calcAngleDiff (direction a) (direction b)

theorem fmod_eq_fract (x y : ℝ) (hy : y ≠ 0) : fmod x y = y * Int.fract (x / y) := by
  rw [fmod, Int.fract, mul_sub, mul_div_cancel₀ _ hy]

theorem fmod_nonneg_lt (x y : ℝ) (hy : 0 < y) : 0 ≤ fmod x y ∧ fmod x y < y := by
  rw [fmod_eq_fract x y (ne_of_gt hy)]
  constructor
  · exact mul_nonneg (le_of_lt hy) (Int.fract_nonneg _)
  · have h := mul_lt_mul_of_pos_left (Int.fract_lt_one (x / y)) hy
    linarith

theorem fmod_eq_self (x y : ℝ) (hy : 0 < y) (h0 : 0 ≤ x) (h1 : x < y) :
    fmod x y = x := by
  rw [fmod, Int.floor_eq_zero_iff.mpr ⟨div_nonneg h0 (le_of_lt hy),
    (div_lt_one hy).mpr h1⟩]
  simp

theorem fmod_add_int_mul (x y : ℝ) (hy : y ≠ 0) (k : ℤ) :
    fmod (x + k * y) y = fmod x y := by
  rw [fmod_eq_fract _ _ hy, fmod_eq_fract _ _ hy]
  congr 1
  rw [add_div, mul_div_assoc, div_self hy, mul_one, Int.fract_add_int]

/-- The per-element correctness of `_calc_angle_diff` on directions in
`[0, 2π)`: adding the result to the source direction gives the target
direction modulo `2π`, and the result lies in `[-π, π)`. -/
theorem calcAngleDiff_spec (f t : ℝ) (hf0 : 0 ≤ f) (hf : f < 2 * π)
    (ht0 : 0 ≤ t) (ht : t < 2 * π) :
    fmod (f + calcAngleDiff f t) (2 * π) = t ∧
    -π ≤ calcAngleDiff f t ∧ calcAngleDiff f t < π := by
  have hπ : 0 < π := Real.pi_pos
  have h2π : (0 : ℝ) < 2 * π := by linarith
  have h2π' : (2 : ℝ) * π ≠ 0 := ne_of_gt h2π
  have hd1 : -(2 * π) < t - f := by linarith
  have hd2 : t - f < 2 * π := by linarith
  have habs : fmod |t - f| (2 * π) = |t - f| :=
    fmod_eq_self _ _ h2π (abs_nonneg _) (abs_lt.mpr ⟨hd1, hd2⟩)
  -- reduce the goal to an explicit value of the result, case by case
  have key : ∃ k : ℤ, calcAngleDiff f t = (t - f) + k * (2 * π) ∧
      -π ≤ calcAngleDiff f t ∧ calcAngleDiff f t < π := by
    simp only [calcAngleDiff, habs]
    rcases le_or_lt 0 (t - f) with hd | hd
    · rw [abs_of_nonneg hd]
      by_cases hgt : t - f > π
      · rw [if_pos hgt, if_pos (Or.inr ⟨le_of_lt hgt, le_of_lt hd2⟩)]
        exact ⟨-1, by push_cast; ring, by linarith, by linarith⟩
      · rw [if_neg hgt]
        by_cases hmask : (-π ≤ t - f ∧ t - f ≤ 0) ∨ (π ≤ t - f ∧ t - f ≤ 2 * π)
        · rw [if_pos hmask]
          rcases hmask with ⟨_, hle⟩ | ⟨hge, _⟩
          · have hz : t - f = 0 := le_antisymm hle hd
            exact ⟨0, by rw [hz]; ring, by rw [hz]; simp; linarith, by
              rw [hz]; simp; linarith⟩
          · have hz : t - f = π := le_antisymm (not_lt.mp hgt) hge
            exact ⟨-1, by rw [hz]; push_cast; ring, by rw [hz], by rw [hz]; linarith⟩
        · rw [if_neg hmask]
          have hlt : t - f < π := by
            rcases not_or.mp hmask with ⟨_, hr⟩
            rcases not_and_or.mp hr with hge | hle
            · exact not_le.mp hge
            · linarith [not_le.mp hle]
          exact ⟨0, by ring, by linarith, hlt⟩
    · rw [abs_of_neg hd]
      by_cases hgt : -(t - f) > π
      · rw [if_pos hgt]
        have hmask : ¬ ((-π ≤ t - f ∧ t - f ≤ 0) ∨ (π ≤ t - f ∧ t - f ≤ 2 * π)) := by
          rintro (⟨hge, _⟩ | ⟨hge, _⟩) <;> linarith
        rw [if_neg hmask]
        exact ⟨1, by push_cast; ring, by linarith, by linarith⟩
      · rw [if_neg hgt, if_pos (Or.inl ⟨by linarith, le_of_lt hd⟩)]
        exact ⟨0, by ring, by linarith, by linarith⟩
  obtain ⟨k, hk, hlo, hhi⟩ := key
  refine ⟨?_, hlo, hhi⟩
  rw [hk, show f + ((t - f) + k * (2 * π)) = t + k * (2 * π) by ring,
    fmod_add_int_mul t _ h2π' k, fmod_eq_self t _ h2π ht0 ht]

theorem direction1_mem (v : Vec2) : 0 ≤ direction1 v ∧ direction1 v < 2 * π := by
  have h2π : (0 : ℝ) < 2 * π := by linarith [Real.pi_pos]
  exact fmod_nonneg_lt _ _ h2π

/-- C5 (as stated) is false on the code: at directions exactly π apart,
`angle_to` returns −π, which is outside the claimed interval (−π, π]. -/
theorem C5_counterexample :
    angle_to [((1 : ℝ), 0)] [((-1 : ℝ), 0)] = [-π] ∧
    ¬ (-π ∈ Set.Ioc (-π) π) := by
  constructor
  · have harct : Real.arctan 0 = 0 := Real.arctan_zero
    have hd1 : direction1 ((1 : ℝ), 0) = 0 := by
      have hat2v : atan2 (0 : ℝ) 1 = 0 := by
        rw [atan2, if_pos one_pos]
        simp [harct]
      simp only [direction1]
      rw [hat2v]
      exact fmod_eq_self 0 _ (by linarith [Real.pi_pos]) le_rfl
        (by linarith [Real.pi_pos])
    have hd2 : direction1 ((-1 : ℝ), 0) = π := by
      have hat2v : atan2 (0 : ℝ) (-1) = π := by
        rw [atan2, if_neg (by norm_num), if_pos (by norm_num), if_pos le_rfl]
        rw [show (0 : ℝ) / (-1) = 0 by norm_num, harct, zero_add]
      simp only [direction1]
      rw [hat2v]
      exact fmod_eq_self π _ (by linarith [Real.pi_pos])
        (le_of_lt Real.pi_pos) (by linarith [Real.pi_pos])
    simp only [angle_to, direction, List.map_cons, List.map_nil, List.zipWith_cons_cons,
      List.zipWith_nil_right, hd1, hd2]
    have hcalc : calcAngleDiff 0 π = -π := by
      simp only [calcAngleDiff, sub_zero]
      rw [abs_of_nonneg (le_of_lt Real.pi_pos),
        fmod_eq_self π _ (by linarith [Real.pi_pos]) (le_of_lt Real.pi_pos)
          (by linarith [Real.pi_pos]),
        if_neg (lt_irrefl π), if_pos (Or.inr ⟨le_rfl, by linarith [Real.pi_pos]⟩)]
    rw [hcalc]
  · simp only [Set.mem_Ioc]
    rintro ⟨hlt, _⟩
    exact lt_irrefl _ hlt

/-- C5 amended: for vectors with equal row counts, each entry `r` of
`a.angle_to(b)` satisfies `(a.direction + r) mod 2π = b.direction` per row,
and `r` lies in the half-open interval `[-π, π)` (the code returns `-π`, not
`π`, when the directions are exactly `π` apart). -/
theorem C5_angle_to_spec (a b : List Vec2) (hab : a.length = b.length)
    (i : ℕ) (hia : i < a.length) (hib : i < b.length) :
    fmod (direction1 (a.getD i ((0 : ℝ), 0)) + (angle_to a b).getD i 0) (2 * π) =
      direction1 (b.getD i ((0 : ℝ), 0)) ∧
    -π ≤ (angle_to a b).getD i 0 ∧ (angle_to a b).getD i 0 < π := by
  have hlen : (angle_to a b).length = a.length := by
    simp [angle_to, direction, hab]
  have hiz : i < (angle_to a b).length := by rw [hlen]; exact hia
  have hget : (angle_to a b).getD i 0 =
      calcAngleDiff (direction1 (a.getD i ((0 : ℝ), 0)))
        (direction1 (b.getD i ((0 : ℝ), 0))) := by
    rw [List.getD_eq_getElem _ _ hiz, List.getD_eq_getElem _ _ hia,
      List.getD_eq_getElem _ _ hib]
    simp [angle_to, direction]
  rw [hget]
  have hmf := direction1_mem (a.getD i ((0 : ℝ), 0))
  have hmt := direction1_mem (b.getD i ((0 : ℝ), 0))
  exact calcAngleDiff_spec _ _ hmf.1 hmf.2 hmt.1 hmt.2

/-- C5 amended witness: two concrete orthogonal unit vectors. -/
theorem C5_angle_to_spec_witness :
    fmod (direction1 ([((1 : ℝ), 0)].getD 0 ((0 : ℝ), 0)) +
        (angle_to [((1 : ℝ), 0)] [((0 : ℝ), 1)]).getD 0 0) (2 * π) =
      direction1 ([((0 : ℝ), 1)].getD 0 ((0 : ℝ), 0)) ∧
    -π ≤ (angle_to [((1 : ℝ), 0)] [((0 : ℝ), 1)]).getD 0 0 ∧
      (angle_to [((1 : ℝ), 0)] [((0 : ℝ), 1)]).getD 0 0 < π :=
  C5_angle_to_spec [((1 : ℝ), 0)] [((0 : ℝ), 1)] (by decide) 0 (by decide) (by decide)
